import Mathlib

/-!
Shallow embedding of `src/batch_exec.py` (the whole repository is this one
file).  The program reads a directive file, splits it into lines, and for
each non-empty line: splits the line on `@` (`wait_time = cmd.split('@')`,
line 34), finds the first `|` (`pipe_flag = cmd.find('|')`, line 37), then
either launches the whole line as one detached process (`_exc`, lines
40-41 and 53-55) or, when `pipe_flag >= 1`, launches the first two
`|`-separated segments as a two-stage pipe (`_piped_exc`, lines 42-44 and
58-63), and finally, when the `@`-split produced more than one segment,
sleeps for `float(wait_time[1])` (lines 47-49).

Effects are embedded as a trace of `Act`s.  Launch failures
(`subprocess.Popen` raising) and float-parse failures (`float(...)`
raising) are modelled by boolean environments `lok` and `fok`; a line
whose processing raises stops with the acts performed so far and a
`false` success flag, and `runLines` stops the whole batch there.
-/

namespace BatchExec

/-- One observable action of the runner.
`popen argv stdoutPiped stdinFromPipe` is a `subprocess.Popen(argv, ...)`
call: `stdoutPiped` records `stdout=subprocess.PIPE`, `stdinFromPipe`
records `stdin=p1.stdout`; a `false` flag means the stream is inherited
from the runner.  `closeStdout` is `p1.stdout.close()`, `wait` is
`p2.communicate()` (blocks until the second process terminates), and
`sleep d` is `time.sleep(float(d))` carrying the exact string handed to
`float`. -/
inductive Act : Type where
  | popen (argv : List String) (stdoutPiped : Bool) (stdinFromPipe : Bool) : Act
  | closeStdout : Act
  | wait : Act
  | sleep (delayArg : String) : Act
  deriving DecidableEq, Repr

/-- Helper for `splitL`: prepend a character to the first chunk. -/
def consHead (c : Char) : List (List Char) → List (List Char)
  | [] => [[c]]
  | h :: t => (c :: h) :: t

/-- Python `str.split(sep)` with a one-character separator, on character
lists: every occurrence of `sep` separates chunks and empty chunks are
kept (`''.split(s) == ['']`). -/
def splitL (sep : Char) : List Char → List (List Char)
  | [] => [[]]
  | c :: cs => if c = sep then [] :: splitL sep cs else consHead c (splitL sep cs)

/-- Python `str.find(c)` on character lists: index of the first
occurrence of `c`, `-1` if absent. -/
def findL (c : Char) : List Char → Int
  | [] => -1
  | x :: xs => if x = c then 0 else if findL c xs < 0 then -1 else findL c xs + 1

/-- Python `s.split(sep)` for a one-character separator. -/
def pySplit (s : String) (sep : Char) : List String :=
  (splitL sep s.toList).map (fun l => l.asString)

/-- Python `s.find(c)` for a single character. -/
def pyFind (s : String) (c : Char) : Int :=
  findL c s.toList

/-- Specification notion: the part of `s` strictly before the first
occurrence of `c` (all of `s` when `c` does not occur). -/
def beforeFirst (c : Char) (s : String) : String :=
  (s.toList.takeWhile (fun x => x != c)).asString

/-- Specification notion: everything in `s` strictly after the first
occurrence of `c` (empty when `c` does not occur). -/
def afterFirst (c : Char) (s : String) : String :=
  ((s.toList.dropWhile (fun x => x != c)).drop 1).asString

/-- Specification notion: the segment of `s` strictly between the first
and the second occurrence of `c` (the whole remainder after the first
occurrence when there is no second one). -/
def betweenFirst (c : Char) (s : String) : String :=
  (((s.toList.dropWhile (fun x => x != c)).drop 1).takeWhile (fun x => x != c)).asString

/-- `_exc(exc_list)` (batch_exec.py lines 53-55): one detached
`Popen(exc_list)`, streams inherited, no wait.  `lok` tells whether the
launch succeeds. -/
def excChecked (lok : List String → Bool) (exc_list : List String) : List Act × Bool :=
  if lok exc_list then ([Act.popen exc_list false false], true) else ([], false)

/-- `_piped_exc(exc_list1, exc_list2)` (lines 58-63): `p1` with
`stdout=PIPE`, `p2` with `stdin=p1.stdout` (its stdout inherited), then
`p1.stdout.close()` and `p2.communicate()`. -/
def piped_excChecked (lok : List String → Bool) (exc_list1 exc_list2 : List String) :
    List Act × Bool :=
  if lok exc_list1 then
    if lok exc_list2 then
      ([Act.popen exc_list1 true false, Act.popen exc_list2 false true,
        Act.closeStdout, Act.wait], true)
    else ([Act.popen exc_list1 true false], false)
  else ([], false)

/-- Delay step (lines 47-49): when `len(wait_time) > 1`, sleep for
`float(wait_time[1])`; `fok` tells whether that `float` call succeeds. -/
def sleepStep (fok : String → Bool) (wait_time : List String) (st : List Act × Bool) :
    List Act × Bool :=
  if st.2 = false then st
  else if 1 < wait_time.length then
    if fok (wait_time.getD 1 "") then (st.1 ++ [Act.sleep (wait_time.getD 1 "")], true)
    else (st.1, false)
  else st

/-- Body of the `for cmd in command_list` loop of `parsing` (lines
29-49) for one line `cmd`: skip falsy (empty) lines, otherwise dispatch
on `pipe_flag < 1` and then perform the delay step. -/
def runLine (lok : List String → Bool) (fok : String → Bool) (cmd : String) :
    List Act × Bool :=
  if cmd = "" then ([], true)
  else
    sleepStep fok (pySplit cmd '@')
      (if pyFind cmd '|' < 1 then excChecked lok (pySplit cmd ' ')
       else
         piped_excChecked lok (pySplit ((pySplit cmd '|').getD 0 "") ' ')
           (pySplit ((pySplit cmd '|').getD 1 "") ' '))

/-- The loop of `parsing` over the line list: lines run in order; an
uncaught failure stops the batch with the acts performed so far. -/
def runLines (lok : List String → Bool) (fok : String → Bool) : List String → List Act × Bool
  | [] => ([], true)
  | cmd :: rest =>
    let r := runLine lok fok cmd
    if r.2 then
      let rs := runLines lok fok rest
      (r.1 ++ rs.1, rs.2)
    else r

/-- `parsing(file_name)` on the file text `txt`: read everything, split
on newlines (line 28), run the lines. -/
def run (lok : List String → Bool) (fok : String → Bool) (txt : String) : List Act × Bool :=
  runLines lok fok (pySplit txt '\n')

/-- Trace of one line when every launch and every float parse
succeeds. -/
def processLine (cmd : String) : List Act :=
  (runLine (fun _ => true) (fun _ => true) cmd).1

/-! ### Basic facts about the Python string primitives -/

theorem consHead_ne_nil (c : Char) (L : List (List Char)) : consHead c L ≠ [] := by
  cases L <;> simp [consHead]

theorem consHead_append (c : Char) (L1 L2 : List (List Char)) (h : L1 ≠ []) :
    consHead c (L1 ++ L2) = consHead c L1 ++ L2 := by
  cases L1 with
  | nil => exact absurd rfl h
  | cons a t => rfl

theorem splitL_ne_nil (sep : Char) (l : List Char) : splitL sep l ≠ [] := by
  induction l with
  | nil => simp [splitL]
  | cons c cs ih =>
    rw [splitL]
    split
    · simp
    · exact consHead_ne_nil _ _

theorem splitL_of_not_mem (sep : Char) {l : List Char} (h : sep ∉ l) : splitL sep l = [l] := by
  induction l with
  | nil => rfl
  | cons c cs ih =>
    have hc : ¬ c = sep := by
      rintro rfl
      exact h (List.mem_cons_self _ _)
    rw [splitL, if_neg hc, ih (fun hm => h (List.mem_cons_of_mem _ hm))]
    rfl

theorem splitL_of_mem (sep : Char) {l : List Char} (h : sep ∈ l) :
    splitL sep l =
      l.takeWhile (fun x => x != sep) ::
        splitL sep ((l.dropWhile (fun x => x != sep)).drop 1) := by
  induction l with
  | nil => cases h
  | cons c cs ih =>
    by_cases hc : c = sep
    · subst hc
      rw [splitL, if_pos rfl]
      simp [List.takeWhile, List.dropWhile]
    · have hmem : sep ∈ cs := by
        rcases List.mem_cons.mp h with h1 | h1
        · exact absurd h1.symm hc
        · exact h1
      rw [splitL, if_neg hc, ih hmem]
      have hb : (c != sep) = true := by simp [bne_iff_ne, hc]
      simp [consHead, List.takeWhile, List.dropWhile, hb]

theorem splitL_append (sep : Char) (l1 l2 : List Char) :
    splitL sep (l1 ++ sep :: l2) = splitL sep l1 ++ splitL sep l2 := by
  induction l1 with
  | nil => simp [splitL]
  | cons c cs ih =>
    simp only [List.cons_append, splitL, List.append_eq]
    by_cases hc : c = sep
    · simp only [if_pos hc, ih]
      rfl
    · simp only [if_neg hc, ih]
      exact consHead_append _ _ _ (splitL_ne_nil _ _)

theorem splitL_getD_zero (sep : Char) (l : List Char) :
    (splitL sep l).getD 0 [] = l.takeWhile (fun x => x != sep) := by
  induction l with
  | nil => rfl
  | cons c cs ih =>
    by_cases hc : c = sep
    · subst hc
      rw [splitL, if_pos rfl]
      simp [List.takeWhile]
    · rw [splitL, if_neg hc]
      have hb : (c != sep) = true := by simp [bne_iff_ne, hc]
      cases hs : splitL sep cs with
      | nil => exact absurd hs (splitL_ne_nil _ _)
      | cons a t =>
        rw [hs] at ih
        simp [consHead, List.takeWhile, hb]
        simpa using ih

theorem splitL_getD_one (sep : Char) {l : List Char} (h : sep ∈ l) :
    (splitL sep l).getD 1 [] =
      ((l.dropWhile (fun x => x != sep)).drop 1).takeWhile (fun x => x != sep) := by
  rw [splitL_of_mem sep h]
  exact splitL_getD_zero sep _

theorem one_lt_splitL_length_iff (sep : Char) (l : List Char) :
    1 < (splitL sep l).length ↔ sep ∈ l := by
  constructor
  · intro h
    by_contra hm
    rw [splitL_of_not_mem sep hm] at h
    simp at h
  · intro h
    rw [splitL_of_mem sep h]
    have h3 : 0 < (splitL sep ((l.dropWhile (fun x => x != sep)).drop 1)).length :=
      List.length_pos.mpr (splitL_ne_nil sep _)
    simp only [List.length_cons]
    omega

theorem findL_eq_neg_one (c : Char) {l : List Char} (h : c ∉ l) : findL c l = -1 := by
  induction l with
  | nil => rfl
  | cons x xs ih =>
    have hx : ¬ x = c := by
      rintro rfl
      exact h (List.mem_cons_self _ _)
    have hxs : findL c xs = -1 := ih (fun hm => h (List.mem_cons_of_mem _ hm))
    rw [findL, if_neg hx, hxs]
    norm_num

theorem mem_of_findL_nonneg {c : Char} {l : List Char} (h : 0 ≤ findL c l) : c ∈ l := by
  by_contra hm
  rw [findL_eq_neg_one c hm] at h
  norm_num at h

theorem ne_empty_of_mem_toList {c : Char} {s : String} (h : c ∈ s.toList) : s ≠ "" := by
  intro he
  rw [he] at h
  exact List.not_mem_nil c h

theorem getD_map_asString (L : List (List Char)) (i : Nat) :
    (L.map (fun l => l.asString)).getD i "" = ((L.getD i []).asString) := by
  induction L generalizing i with
  | nil => rfl
  | cons a t ih =>
    cases i with
    | zero => rfl
    | succ n => exact ih n

/-! ### The `pySplit` / `pyFind` layer, related to the spec notions -/

theorem pySplit_getD_zero (s : String) (sep : Char) :
    (pySplit s sep).getD 0 "" = beforeFirst sep s := by
  rw [pySplit, getD_map_asString, splitL_getD_zero]
  rfl

theorem pySplit_getD_one (s : String) (sep : Char) (h : sep ∈ s.toList) :
    (pySplit s sep).getD 1 "" = betweenFirst sep s := by
  rw [pySplit, getD_map_asString, splitL_getD_one sep h]
  rfl

theorem one_lt_pySplit_length_iff (s : String) (sep : Char) :
    1 < (pySplit s sep).length ↔ sep ∈ s.toList := by
  rw [pySplit, List.length_map]
  exact one_lt_splitL_length_iff sep s.toList

theorem mem_toList_of_one_le_pyFind {s : String} {c : Char} (h : 1 ≤ pyFind s c) :
    c ∈ s.toList :=
  mem_of_findL_nonneg (le_trans (by norm_num) h)

/-! ### Unfolding the per-line trace -/

theorem excChecked_true (l : List String) :
    excChecked (fun _ => true) l = ([Act.popen l false false], true) := by
  simp [excChecked]

theorem piped_excChecked_true (l1 l2 : List String) :
    piped_excChecked (fun _ => true) l1 l2 =
      ([Act.popen l1 true false, Act.popen l2 false true,
        Act.closeStdout, Act.wait], true) := by
  simp [piped_excChecked]

theorem sleepStep_fst_true (w : List String) (a : List Act) :
    (sleepStep (fun _ => true) w (a, true)).1 =
      a ++ (if 1 < w.length then [Act.sleep (w.getD 1 "")] else []) := by
  rw [sleepStep]
  simp only [if_neg (by simp : ¬ (true : Bool) = false)]
  split <;> simp

theorem processLine_piped (cmd : String) (h : 1 ≤ pyFind cmd '|') :
    processLine cmd =
      [Act.popen (pySplit (beforeFirst '|' cmd) ' ') true false,
       Act.popen (pySplit (betweenFirst '|' cmd) ' ') false true,
       Act.closeStdout, Act.wait] ++
      (if 1 < (pySplit cmd '@').length then
        [Act.sleep ((pySplit cmd '@').getD 1 "")] else []) := by
  have hmem : '|' ∈ cmd.toList := mem_toList_of_one_le_pyFind h
  have hne : cmd ≠ "" := ne_empty_of_mem_toList hmem
  rw [processLine, runLine, if_neg hne, if_neg (by omega : ¬ pyFind cmd '|' < 1),
    piped_excChecked_true, sleepStep_fst_true, pySplit_getD_zero,
    pySplit_getD_one _ _ hmem]

theorem processLine_nonpiped (cmd : String) (h0 : cmd ≠ "") (h : pyFind cmd '|' < 1) :
    processLine cmd =
      [Act.popen (pySplit cmd ' ') false false] ++
      (if 1 < (pySplit cmd '@').length then
        [Act.sleep ((pySplit cmd '@').getD 1 "")] else []) := by
  rw [processLine, runLine, if_neg h0, if_pos h, excChecked_true, sleepStep_fst_true]

theorem sleep_tail_shape (P : Prop) [Decidable P] (d : String) :
    ∀ x ∈ (if P then [Act.sleep d] else []), ∃ e, x = Act.sleep e := by
  split
  · intro x hx
    rw [List.mem_singleton.mp hx]
    exact ⟨d, rfl⟩
  · intro x hx
    cases hx

theorem processLine_empty : processLine "" = [] := rfl

theorem runLine_exec_state (lok : List String → Bool) (fok : String → Bool)
    (cmd : String) (hne : cmd ≠ "") (hp : pyFind cmd '|' < 1)
    (hlok : ∀ a, lok a = true) :
    runLine lok fok cmd =
      sleepStep fok (pySplit cmd '@')
        ([Act.popen (pySplit cmd ' ') false false], true) := by
  rw [runLine, if_neg hne, if_pos hp, excChecked, if_pos (hlok _)]

theorem runLine_piped_state (lok : List String → Bool) (fok : String → Bool)
    (cmd : String) (hne : cmd ≠ "") (hp : ¬ pyFind cmd '|' < 1)
    (hlok : ∀ a, lok a = true) :
    runLine lok fok cmd =
      sleepStep fok (pySplit cmd '@')
        ([Act.popen (pySplit ((pySplit cmd '|').getD 0 "") ' ') true false,
          Act.popen (pySplit ((pySplit cmd '|').getD 1 "") ' ') false true,
          Act.closeStdout, Act.wait], true) := by
  rw [runLine, if_neg hne, if_neg hp, piped_excChecked, if_pos (hlok _), if_pos (hlok _)]

theorem sleepStep_snd_false (fok : String → Bool) (w : List String) (a : List Act)
    (hlen : 1 < w.length) (hfok : fok (w.getD 1 "") = false) :
    (sleepStep fok w (a, true)).2 = false := by
  rw [sleepStep, if_neg (by simp : ¬ ((a, true) : List Act × Bool).2 = false),
    if_pos hlen, if_neg (by rw [hfok]; simp)]

/-! ### The claims -/

/-- Claim C1, counterexample: on the line "a |b|c" the first bar is at
index 2 ≥ 1, but stage 2's argument vector is the token list of the
segment between the first and the second bar, `["b"]`, not the token
list `["b|c"]` of everything after the first bar: the third segment "c"
is dropped entirely, because `_piped_exc` receives only `excs[0]` and
`excs[1]` of `cmd.split('|')`. -/
theorem pipe_split_not_whole_suffix :
    1 ≤ pyFind "a |b|c" '|' ∧
    afterFirst '|' "a |b|c" = "b|c" ∧
    pySplit "b|c" ' ' = ["b|c"] ∧
    processLine "a |b|c" =
      [Act.popen ["a", ""] true false, Act.popen ["b"] false true,
       Act.closeStdout, Act.wait] ∧
    (["b"] : List String) ≠ ["b|c"] := by
  exact ⟨by decide, by decide, by decide, by decide, by decide⟩

/-- Claim C1 (amended): for every line whose first bar sits at index
≥ 1, the runner launches stage 1 from the tokens of the text before the
first bar with its stdout captured into a pipe, then stage 2 from the
tokens of the segment between the first and the second bar (the whole
remainder when the line has a single bar) with its stdin connected to
that pipe, then closes the write end and waits; at most a sleep act
follows. -/
theorem pipe_split_segments (cmd : String) (h : 1 ≤ pyFind cmd '|') :
    ∃ tail,
      processLine cmd =
        Act.popen (pySplit (beforeFirst '|' cmd) ' ') true false ::
        Act.popen (pySplit (betweenFirst '|' cmd) ' ') false true ::
        Act.closeStdout :: Act.wait :: tail ∧
      ∀ x ∈ tail, ∃ d, x = Act.sleep d := by
  refine ⟨if 1 < (pySplit cmd '@').length then
      [Act.sleep ((pySplit cmd '@').getD 1 "")] else [], ?_, sleep_tail_shape _ _⟩
  rw [processLine_piped cmd h]
  rfl

/-- Claim C1 witness: the amended statement at the concrete line
"x|y". -/
theorem pipe_split_segments_witness :
    ∃ tail,
      processLine "x|y" =
        Act.popen (pySplit (beforeFirst '|' "x|y") ' ') true false ::
        Act.popen (pySplit (betweenFirst '|' "x|y") ' ') false true ::
        Act.closeStdout :: Act.wait :: tail ∧
      ∀ x ∈ tail, ∃ d, x = Act.sleep d :=
  pipe_split_segments "x|y" (by decide)

/-- Claim C2, counterexample: on the piped line "a | b" the trace is the
two launches, the close and the wait, and no launch in it has its stdout
captured while also reading the pipe: the stage-2 launch is
`popen ["", "b"] false true`, whose `stdoutPiped = false` means the
stage-2 output is inherited by the runner's console (displayed), not
captured and discarded — `p2 = subprocess.Popen(exc_list2,
stdin=p1.stdout)` passes no `stdout` argument. -/
theorem piped_stage2_output_not_captured :
    1 ≤ pyFind "a | b" '|' ∧
    processLine "a | b" =
      [Act.popen ["a", ""] true false, Act.popen ["", "b"] false true,
       Act.closeStdout, Act.wait] ∧
    (∀ argv, Act.popen argv true true ∉ processLine "a | b") := by
  refine ⟨by decide, by decide, ?_⟩
  intro argv hmem
  have he : processLine "a | b" =
      [Act.popen ["a", ""] true false, Act.popen ["", "b"] false true,
       Act.closeStdout, Act.wait] := by decide
  rw [he] at hmem
  simp at hmem

/-- Claim C2 (amended): a piped line blocks — its trace launches the two
stages, closes the pipe's write end and ends the execution phase with a
wait for the stage-2 process, before any sleep act (hence before the
delay step and before any later line); stage 2's stdout is not captured
(its `stdoutPiped` flag is `false`: the stream is inherited, hence
displayed).  A non-piped line produces no wait act at all: the runner
proceeds immediately. -/
theorem piped_waits_nonpiped_does_not (cmd : String) :
    (1 ≤ pyFind cmd '|' →
      ∃ a1 a2 tail,
        processLine cmd =
          Act.popen a1 true false :: Act.popen a2 false true ::
          Act.closeStdout :: Act.wait :: tail ∧
        ∀ x ∈ tail, ∃ d, x = Act.sleep d) ∧
    (pyFind cmd '|' < 1 → Act.wait ∉ processLine cmd) := by
  constructor
  · intro h
    refine ⟨pySplit (beforeFirst '|' cmd) ' ', pySplit (betweenFirst '|' cmd) ' ',
      if 1 < (pySplit cmd '@').length then
        [Act.sleep ((pySplit cmd '@').getD 1 "")] else [], ?_, sleep_tail_shape _ _⟩
    rw [processLine_piped cmd h]
    rfl
  · intro h
    by_cases h0 : cmd = ""
    · subst h0
      rw [processLine_empty]
      exact List.not_mem_nil _
    · rw [processLine_nonpiped cmd h0 h]
      intro hmem
      rcases List.mem_append.mp hmem with hm | hm
      · simp at hm
      · revert hm
        split
        · intro hm
          simp at hm
        · intro hm
          simp at hm

/-- Claim C2 witness: the piped half of the amended statement at the
concrete line "a | b". -/
theorem piped_waits_nonpiped_does_not_witness :
    ∃ a1 a2 tail,
      processLine "a | b" =
        Act.popen a1 true false :: Act.popen a2 false true ::
        Act.closeStdout :: Act.wait :: tail ∧
      ∀ x ∈ tail, ∃ d, x = Act.sleep d :=
  (piped_waits_nonpiped_does_not "a | b").1 (by decide)

/-- Claim C3, counterexample: the line "a@2@3" contains '@', the
substring after its first '@' is "2@3" (non-numeric, so the claim
predicts a run-time failure), yet the runner launches the command and
then sleeps for `float("2")` — `cmd.split('@')[1]` is the segment
between the first and the second '@', not everything after the
first. -/
theorem delay_not_whole_at_suffix :
    ('@' ∈ "a@2@3".toList) ∧
    afterFirst '@' "a@2@3" = "2@3" ∧
    processLine "a@2@3" = [Act.popen ["a@2@3"] false false, Act.sleep "2"] ∧
    ("2" : String) ≠ "2@3" := by
  exact ⟨by decide, by decide, by decide, by decide⟩

/-- Claim C3 (amended): for every line containing '@' the command acts
all precede the single sleep act, and the sleep's argument — the exact
string handed to `float` — is the segment of the line between the first
and the second '@' (the whole remainder when there is only one '@');
when `float` fails on that segment (it is non-numeric), the line fails
after its launches. -/
theorem delay_after_exec_between_ats (cmd : String) (h : '@' ∈ cmd.toList) :
    (∃ ex, processLine cmd = ex ++ [Act.sleep (betweenFirst '@' cmd)] ∧
      ∀ a ∈ ex, ∀ d, a ≠ Act.sleep d) ∧
    (∀ lok fok, (∀ a, lok a = true) → fok (betweenFirst '@' cmd) = false →
      (runLine lok fok cmd).2 = false) := by
  have hne : cmd ≠ "" := ne_empty_of_mem_toList h
  have hlen : 1 < (pySplit cmd '@').length := (one_lt_pySplit_length_iff cmd '@').mpr h
  have hseg : (pySplit cmd '@').getD 1 "" = betweenFirst '@' cmd :=
    pySplit_getD_one cmd '@' h
  constructor
  · by_cases hp : pyFind cmd '|' < 1
    · refine ⟨[Act.popen (pySplit cmd ' ') false false], ?_, ?_⟩
      · rw [processLine_nonpiped cmd hne hp, if_pos hlen, hseg]
      · intro a ha d
        rw [List.mem_singleton.mp ha]
        simp
    · refine ⟨[Act.popen (pySplit (beforeFirst '|' cmd) ' ') true false,
        Act.popen (pySplit (betweenFirst '|' cmd) ' ') false true,
        Act.closeStdout, Act.wait], ?_, ?_⟩
      · rw [processLine_piped cmd (by omega), if_pos hlen, hseg]
      · intro a ha d
        simp only [List.mem_cons, List.not_mem_nil, or_false] at ha
        rcases ha with rfl | rfl | rfl | rfl <;> simp
  · intro lok fok hlok hfok
    have hfok2 : fok ((pySplit cmd '@').getD 1 "") = false := by
      rw [hseg]
      exact hfok
    by_cases hp : pyFind cmd '|' < 1
    · rw [runLine_exec_state lok fok cmd hne hp hlok]
      exact sleepStep_snd_false fok _ _ hlen hfok2
    · rw [runLine_piped_state lok fok cmd hne hp hlok]
      exact sleepStep_snd_false fok _ _ hlen hfok2

/-- Claim C3 witness: the amended statement at the concrete line
"a@2". -/
theorem delay_after_exec_between_ats_witness :
    (∃ ex, processLine "a@2" = ex ++ [Act.sleep (betweenFirst '@' "a@2")] ∧
      ∀ a ∈ ex, ∀ d, a ≠ Act.sleep d) ∧
    (∀ lok fok, (∀ a, lok a = true) → fok (betweenFirst '@' "a@2") = false →
      (runLine lok fok "a@2").2 = false) :=
  delay_after_exec_between_ats "a@2" (by decide)

theorem toList_append (s t : String) : (s ++ t).toList = s.toList ++ t.toList := by
  cases s
  cases t
  rfl

theorem asString_append_toList (l : List Char) (s : String) :
    (l ++ s.toList).asString = l.asString ++ s := by
  cases s
  rfl

/-- Claim C4: for a non-piped line of the shape `pre ++ " @" ++ num`
(no space inside `num`), the delay suffix is not stripped before
tokenizing: the whole line is split on single spaces, so the launched
argument vector is the tokens of `pre` followed by the literal trailing
token `"@" ++ num`; only a sleep act follows the launch. -/
theorem delay_suffix_kept_in_argv (pre num : String)
    (hpipe : pyFind (pre ++ " @" ++ num) '|' < 1)
    (hnum : ' ' ∉ num.toList) :
    ∃ tail,
      processLine (pre ++ " @" ++ num) =
        Act.popen (pySplit pre ' ' ++ [("@" ++ num : String)]) false false :: tail ∧
      ∀ x ∈ tail, ∃ d, x = Act.sleep d := by
  have htl : (pre ++ " @" ++ num).toList = pre.toList ++ (' ' :: '@' :: num.toList) := by
    rw [toList_append, toList_append, List.append_assoc]
    rfl
  have hne : (pre ++ " @" ++ num) ≠ "" := by
    intro he
    rw [he] at htl
    have : ([] : List Char) = pre.toList ++ (' ' :: '@' :: num.toList) := htl
    simp at this
  have hm : ' ' ∉ ('@' :: num.toList) := by
    intro hmm
    rcases List.mem_cons.mp hmm with h1 | h1
    · exact absurd h1 (by decide)
    · exact hnum h1
  have hat : ('@' :: num.toList).asString = ("@" ++ num : String) := by
    have h2 := asString_append_toList ['@'] num
    simpa using h2
  have hsplit : pySplit (pre ++ " @" ++ num) ' ' =
      pySplit pre ' ' ++ [("@" ++ num : String)] := by
    rw [pySplit, htl, splitL_append, splitL_of_not_mem ' ' hm, List.map_append, pySplit,
      ← hat]
    rfl
  refine ⟨if 1 < (pySplit (pre ++ " @" ++ num) '@').length then
      [Act.sleep ((pySplit (pre ++ " @" ++ num) '@').getD 1 "")] else [],
    ?_, sleep_tail_shape _ _⟩
  rw [processLine_nonpiped _ hne hpipe, hsplit]
  rfl

/-- Claim C4 witness: the statement at the concrete line
"echo a @10". -/
theorem delay_suffix_kept_in_argv_witness :
    ∃ tail,
      processLine ("echo a" ++ " @" ++ "10") =
        Act.popen (pySplit "echo a" ' ' ++ [("@" ++ "10" : String)]) false false :: tail ∧
      ∀ x ∈ tail, ∃ d, x = Act.sleep d :=
  delay_suffix_kept_in_argv "echo a" "10" (by decide) (by decide)

/-- Claim C5: a non-empty line containing neither '@' nor '|' produces
exactly one detached launch whose argument vector is the whole line
split on single spaces, and no delay. -/
theorem plain_line_argv_verbatim (cmd : String) (h0 : cmd ≠ "")
    (h1 : '@' ∉ cmd.toList) (h2 : '|' ∉ cmd.toList) :
    processLine cmd = [Act.popen (pySplit cmd ' ') false false] := by
  have hp : pyFind cmd '|' < 1 := by
    rw [pyFind, findL_eq_neg_one '|' h2]
    norm_num
  have hlen : ¬ 1 < (pySplit cmd '@').length := fun hh =>
    h1 ((one_lt_pySplit_length_iff cmd '@').mp hh)
  rw [processLine_nonpiped cmd h0 hp, if_neg hlen]
  simp

/-- Claim C5 witness: the statement at the concrete line "echo hi". -/
theorem plain_line_argv_verbatim_witness :
    processLine "echo hi" = [Act.popen (pySplit "echo hi" ' ') false false] :=
  plain_line_argv_verbatim "echo hi" (by decide) (by decide) (by decide)

/-- Claim C6: a line whose first character is '|' has `pipe_flag = 0`,
so `pipe_flag < 1` holds and the pipe is not triggered: the whole line
(leading bar included) is tokenized on single spaces and launched as a
single detached command; at most a sleep act follows. -/
theorem leading_bar_not_piped (cmd : String) (h : cmd.toList.head? = some '|') :
    ∃ tail,
      processLine cmd = Act.popen (pySplit cmd ' ') false false :: tail ∧
      ∀ x ∈ tail, ∃ d, x = Act.sleep d := by
  obtain ⟨t, ht⟩ : ∃ t, cmd.toList = '|' :: t := by
    cases hc : cmd.toList with
    | nil =>
      rw [hc] at h
      cases h
    | cons a t =>
      rw [hc] at h
      exact ⟨t, by rw [Option.some.inj h]⟩
  have hne : cmd ≠ "" := by
    intro he
    rw [he] at ht
    cases ht
  have hp : pyFind cmd '|' < 1 := by
    rw [pyFind, ht, findL, if_pos rfl]
    norm_num
  refine ⟨if 1 < (pySplit cmd '@').length then
      [Act.sleep ((pySplit cmd '@').getD 1 "")] else [], ?_, sleep_tail_shape _ _⟩
  rw [processLine_nonpiped cmd hne hp]
  rfl

/-- Claim C6 witness: the statement at the concrete line "|a b". -/
theorem leading_bar_not_piped_witness :
    ∃ tail,
      processLine "|a b" = Act.popen (pySplit "|a b" ' ') false false :: tail ∧
      ∀ x ∈ tail, ∃ d, x = Act.sleep d :=
  leading_bar_not_piped "|a b" (by decide)

/-- Claim C7: if a line fails (a launch failure or an unparseable delay
segment), the batch stops there: no line after the failing one
contributes any act, while the acts of the earlier lines — and those of
the failing line performed before its failure point — remain in the
trace (nothing is rolled back). -/
theorem failure_aborts_rest (lok : List String → Bool) (fok : String → Bool)
    (done : List String) (c : String) (post : List String)
    (hok : ∀ l ∈ done, (runLine lok fok l).2 = true)
    (hc : (runLine lok fok c).2 = false) :
    runLines lok fok (done ++ c :: post) =
      ((done.map (fun l => (runLine lok fok l).1)).flatten ++ (runLine lok fok c).1,
        false) := by
  induction done with
  | nil =>
    rw [List.nil_append, runLines]
    simp only [hc, Bool.false_eq_true, if_false]
    exact Prod.ext rfl hc
  | cons b bs ih =>
    have hb : (runLine lok fok b).2 = true := hok b (List.mem_cons_self _ _)
    have ih2 := ih (fun l hl => hok l (List.mem_cons_of_mem _ hl))
    rw [List.cons_append, runLines]
    simp only [hb, if_true, ih2, List.map_cons, List.flatten_cons]
    rw [List.append_assoc]

/-- Claim C7 witness: with every launch succeeding and every float parse
failing, the batch ["a", "b@x", "c"] keeps the acts of "a" and the
launch of "b@x", stops at the failed delay of "b@x", and never reaches
"c". -/
theorem failure_aborts_rest_witness :
    runLines (fun _ => true) (fun _ => false) (["a"] ++ "b@x" :: ["c"]) =
      ((["a"].map (fun l => (runLine (fun _ => true) (fun _ => false) l).1)).flatten ++
        (runLine (fun _ => true) (fun _ => false) "b@x").1, false) :=
  failure_aborts_rest (fun _ => true) (fun _ => false) ["a"] "b@x" ["c"]
    (by decide) (by decide)

/-- Claim C8: a blank line is a no-op — no act (no launch, no sleep) and
no failure — under every environment, and the empty directive file
("".split('\n') is [""]: a single blank line) produces no acts at
all. -/
theorem blank_line_and_empty_file_noop (lok : List String → Bool) (fok : String → Bool) :
    runLine lok fok "" = ([], true) ∧ run lok fok "" = ([], true) :=
  ⟨rfl, rfl⟩

/-- Claim C9: a line containing '@' and whose first '|' is at index ≥ 1
is pipe-split on the raw line — stage 1 is the tokens before the first
bar, stage 2 the tokens of the segment between the first and the second
bar, any '@' text included, nothing stripped — and after the piped
execution completes the runner sleeps with argument the segment of the
raw line between the first and the second '@' (the whole remainder when
there is only one '@'). -/
theorem pipe_and_delay_combined (cmd : String) (hp : 1 ≤ pyFind cmd '|')
    (ha : '@' ∈ cmd.toList) :
    processLine cmd =
      [Act.popen (pySplit (beforeFirst '|' cmd) ' ') true false,
       Act.popen (pySplit (betweenFirst '|' cmd) ' ') false true,
       Act.closeStdout, Act.wait,
       Act.sleep (betweenFirst '@' cmd)] := by
  have hlen : 1 < (pySplit cmd '@').length := (one_lt_pySplit_length_iff cmd '@').mpr ha
  rw [processLine_piped cmd hp, if_pos hlen, pySplit_getD_one cmd '@' ha]
  rfl

/-- Claim C9 witness: the statement at the concrete line "a|b @2". -/
theorem pipe_and_delay_combined_witness :
    processLine "a|b @2" =
      [Act.popen (pySplit (beforeFirst '|' "a|b @2") ' ') true false,
       Act.popen (pySplit (betweenFirst '|' "a|b @2") ' ') false true,
       Act.closeStdout, Act.wait,
       Act.sleep (betweenFirst '@' "a|b @2")] :=
  pipe_and_delay_combined "a|b @2" (by decide) (by decide)

/-- Claim C10: the tokenizer splits on single spaces and keeps
empty-string tokens — a leading space yields a leading "" token, a
trailing space a trailing "" token, a doubled space an "" token — and on
the spaced piped line `echo "WORLD" | cat` the stage-2 argument vector
is ["", "cat"]: its first element, the program-name slot, is the empty
string. -/
theorem tokens_keep_empty_strings (s t : String) :
    (pySplit (" " ++ s) ' ').head? = some "" ∧
    (pySplit (s ++ " ") ' ').getLast? = some "" ∧
    "" ∈ pySplit (s ++ "  " ++ t) ' ' ∧
    processLine "echo \"WORLD\" | cat" =
      [Act.popen ["echo", "\"WORLD\"", ""] true false,
       Act.popen ["", "cat"] false true, Act.closeStdout, Act.wait] := by
  refine ⟨?_, ?_, ?_, by decide⟩
  · have h1 : (" " ++ s).toList = ' ' :: s.toList := by
      rw [toList_append]
      rfl
    rw [pySplit, h1, splitL, if_pos rfl]
    rfl
  · have h1 : (s ++ " ").toList = s.toList ++ [' '] := by
      rw [toList_append]
      rfl
    have h2 : splitL ' ' (s.toList ++ [' ']) = splitL ' ' s.toList ++ [[]] :=
      splitL_append ' ' s.toList []
    rw [pySplit, h1, h2, List.map_append]
    simp
    rfl
  · have h1 : (s ++ "  " ++ t).toList = s.toList ++ (' ' :: ' ' :: t.toList) := by
      rw [toList_append, toList_append, List.append_assoc]
      rfl
    have h2 : splitL ' ' (s.toList ++ ' ' :: (' ' :: t.toList)) =
        splitL ' ' s.toList ++ splitL ' ' (' ' :: t.toList) :=
      splitL_append ' ' s.toList (' ' :: t.toList)
    rw [pySplit, h1, h2, splitL, if_pos rfl]
    refine List.mem_map.mpr ⟨[], ?_, rfl⟩
    exact List.mem_append.mpr (Or.inr (List.mem_cons_self _ _))

end BatchExec
